import Mathlib

/-!
Shallow embedding of the JSON-schema validator in
`src/extsrc/json-schema-validator/json-validator.cpp` (a vendored copy of
Patrick Boettcher's `json-schema-validator` for nlohmann/json).

Modelling conventions, fixed once here:

* JSON values (`nlohmann::json`) are modelled by `JVal`.  JSON strings are
  byte sequences (`List Nat`), because the string validator counts UTF-8
  bytes.  JSON objects are association lists of `(key, value)` pairs.
  `nlohmann::json` stores objects in a `std::map`, i.e. key-sorted and
  duplicate-free; parsing a textual document therefore normalises member
  order.  The function `jnormalize` models this parse-time normalisation
  (it sorts every object level by key); the compiler and the validation
  engine then work on normalised values, exactly as the C++ code only ever
  sees `std::map`-backed objects.
* `double` arithmetic is modelled by `ℚ`.  The concrete inputs used in the
  theorems below are chosen so that every `double` operation the code
  performs on them is exact, hence the rational model computes the same
  results bit-for-bit.
* The ECMA-262 regular-expression engine is an external collaborator of the
  code (`std::regex`); it is modelled by an oracle
  `rx : List Nat → List Nat → Bool` (`rx pattern text` = `regex_search`).
* `basic_error_handler` (declared in the missing header `json-schema.hpp`)
  is a sink that records `error(path, instance, message)` calls and converts
  to `true` once an error was recorded.  Validation functions here return
  the list of errors they emit, in emission order; `if (err)` on a fresh
  handler becomes emptiness of the returned list.  Error kinds (`Err`)
  stand for the distinct message strings of the source.
* Recursion is structural on an explicit fuel everywhere, so that every
  function evaluates by `decide`/`rfl`.  Fuel exhaustion models divergence
  (or C++ stack overflow) and is reported as `Err.outOfFuel` respectively
  `CErr.fuelOut`; no C++ `catch` can observe divergence, so `CErr.fuelOut`
  is never swallowed by the modelled `catch (...)`.
-/

/-- A JSON string / object key: its UTF-8 byte sequence. -/
abbrev JKey := List Nat

/-- ASCII helper: byte sequence of an ASCII Lean string literal. -/
def kb (s : String) : JKey := s.toList.map Char.toNat

/-- JSON values (`nlohmann::json`).  The three numeric storage kinds of
nlohmann (`number_integer`, `number_unsigned`, `number_float`) are kept
apart because the validator dispatches on them. -/
inductive JVal where
  | null
  | boolean (b : Bool)
  | numInt (n : Int)
  | numUns (n : Nat)
  | numFloat (q : ℚ)
  | string (s : JKey)
  | array (xs : List JVal)
  | object (kvs : List (JKey × JVal))

/-- The instance-type tags the engine dispatches on
(`json::value_t` without `discarded`/`binary`). -/
inductive JType where
  | tnull | tobject | tarray | tstring | tboolean | tint | tuns | tfloat
deriving DecidableEq

/-- `instance.type()`. -/
def jtype : JVal → JType
  | .null => .tnull
  | .boolean _ => .tboolean
  | .numInt _ => .tint
  | .numUns _ => .tuns
  | .numFloat _ => .tfloat
  | .string _ => .tstring
  | .array _ => .tarray
  | .object _ => .tobject

/-- First-match association-list lookup (`std::map::find`; compiled maps
are duplicate-free, so first-match agrees with map lookup). -/
def lookupA {α β : Type} [DecidableEq α] : List (α × β) → α → Option β
  | [], _ => none
  | (k, v) :: r, key => if k = key then some v else lookupA r key

/-- Remove the entry for a key (`std::map::erase(key)`). -/
def removeA {α β : Type} [DecidableEq α] : List (α × β) → α → List (α × β)
  | [], _ => []
  | (k, v) :: r, key => if k = key then removeA r key else (k, v) :: removeA r key

/-- Value conversion to the numeric model (`T value = instance`).  The
numeric validators are instantiated at `int64`/`uint64`/`double`; all three
are modelled at `ℚ`, exact on the values the claims exercise. -/
def toRat : JVal → ℚ
  | .numInt n => (n : ℚ)
  | .numUns n => (n : ℚ)
  | .numFloat q => q
  | _ => 0

/-- Conversion of a schema value to a size/length bound (`size_t` from
json; non-integral or non-numeric values would throw in nlohmann and are
defaulted here, no claim exercises them). -/
def toSize : JVal → Nat
  | .numInt n => n.toNat
  | .numUns n => n
  | .numFloat q => q.floor.toNat
  | _ => 0

/-- nlohmann iteration (`for (auto &x : j)`): arrays iterate elements,
objects iterate mapped values, `null` iterates zero times, anything else
iterates once over itself. -/
def jIter : JVal → List JVal
  | .array xs => xs
  | .object kvs => kvs.map Prod.snd
  | .null => []
  | v => [v]

/-- Member lookup on an instance (`instance.find(name)`). -/
def objLookup : JVal → JKey → Option JVal
  | .object kvs, k => lookupA kvs k
  | _, _ => none

/-- Members of an object instance (empty for non-objects). -/
def objMembers : JVal → List (JKey × JVal)
  | .object kvs => kvs
  | _ => []

/-- `get<std::vector<std::string>>` on an array of strings (elements that
are not strings would throw in nlohmann; defaulted, not exercised). -/
def toStringList : JVal → List JKey
  | .array xs => xs.map (fun v => match v with | .string s => s | _ => [])
  | _ => []

/-- Strict lexicographic byte-sequence order, the `std::map<std::string,…>`
key order. -/
def keyLtb : JKey → JKey → Bool
  | [], [] => false
  | [], _ :: _ => true
  | _ :: _, [] => false
  | a :: as, b :: bs => if a < b then true else if b < a then false else keyLtb as bs

/-- Ordered insertion of one `(key, value)` pair. -/
def insertKv {β : Type} (p : JKey × β) : List (JKey × β) → List (JKey × β)
  | [] => [p]
  | q :: qs => if keyLtb q.1 p.1 then q :: insertKv p qs else p :: q :: qs

/-- Insertion sort by key: the member order a `std::map` imposes. -/
def sortKvs {β : Type} : List (JKey × β) → List (JKey × β)
  | [] => []
  | p :: ps => insertKv p (sortKvs ps)

/-- One level of `jnormalize` over an association list. -/
def normKvs (nrm : JVal → JVal) : List (JKey × JVal) → List (JKey × JVal)
  | [] => []
  | (k, v) :: r => (k, nrm v) :: normKvs nrm r

/-- One level of `jnormalize` over an array. -/
def normList (nrm : JVal → JVal) : List JVal → List JVal
  | [] => []
  | v :: r => nrm v :: normList nrm r

/-- Parse-time normalisation performed by the (out-of-scope) JSON data
model: every object level becomes key-sorted, as `nlohmann::json`'s
`std::map` representation imposes.  Fuel-structural; fuel exhaustion
collapses to `null`, which is never reached when the fuel exceeds the
document depth (recursion descends one level per unit of fuel). -/
def jnormalize : Nat → JVal → JVal
  | 0, _ => .null
  | f + 1, .object kvs => .object (sortKvs (normKvs (jnormalize f) kvs))
  | f + 1, .array xs => .array (normList (jnormalize f) xs)
  | _ + 1, v => v

/-- nlohmann `operator==` on json values: numbers compare by numeric value
across the three storage kinds, everything else structurally (objects are
sorted maps on both sides). -/
def jeq : Nat → JVal → JVal → Bool
  | 0, _, _ => false
  | f + 1, a, b =>
    match a, b with
    | .null, .null => true
    | .boolean x, .boolean y => x = y
    | .string x, .string y => x = y
    | .numInt _, _ | .numUns _, _ | .numFloat _, _ =>
      match jtype b with
      | .tint | .tuns | .tfloat => toRat a = toRat b
      | _ => false
    | .array xs, .array ys => jeqList (jeq f) xs ys
    | .object ps, .object qs => jeqKvs (jeq f) ps qs
    | _, _ => false
where
  jeqList (je : JVal → JVal → Bool) : List JVal → List JVal → Bool
    | [], [] => true
    | x :: xs, y :: ys => je x y && jeqList je xs ys
    | _, _ => false
  jeqKvs (je : JVal → JVal → Bool) : List (JKey × JVal) → List (JKey × JVal) → Bool
    | [], [] => true
    | (k, v) :: ps, (l, w) :: qs => k = l && je v w && jeqKvs je ps qs
    | _, _ => false

/-- Validation-time error kinds: one constructor per distinct
`e.error(...)` message of the source (payloads kept only where a claim
needs them).  `outOfFuel` marks fuel exhaustion (divergence). -/
inductive Err where
  | unexpectedType
  | enumMismatch
  | constMismatch
  | notFailure
  | allOfFailure
  | oneOfMultiple
  | anyOneOfNone
  | falseSchema
  | tooShort
  | tooLong
  | patternMismatch
  | formatCheckerMissing
  | notMultipleOf
  | exceedsMaximum
  | belowMinimum
  | expectedNull
  | tooManyProperties
  | tooFewProperties
  | requiredNotFound (name : JKey)
  | requiredDepNotFound (name : JKey)
  | tooManyItems
  | tooFewItems
  | itemsNotUnique
  | containsFailed
  | unresolvedRef (id : JKey)
  | noRootSchema
  | outOfFuel
deriving DecidableEq

/-- Build-time exceptions (`throw std::invalid_argument` in the source),
plus `fuelOut` for fuel exhaustion, which models divergence and is never
swallowed by the modelled `catch (...)`. -/
inductive CErr where
  | duplicateSchema (id : JKey)
  | noLoader (loc : JKey)
  | loaderFailed (loc : JKey)
  | fuelOut
deriving DecidableEq

/-- The fields of `class string` (constraint bundle; the pattern is kept as
its source string, matching is delegated to the regex oracle).  The
`format_check_` member of the source is initialised to `nullptr` and never
assigned in this translation unit, so a `format` keyword always reports the
missing-checker error at validation time. -/
structure StrCfg where
  maxLength_ : Option Nat := none
  minLength_ : Option Nat := none
  pattern_ : Option JKey := none
  format_ : Option JKey := none
deriving DecidableEq

/-- The fields of `template <T> class numeric` (bounds at the `ℚ` model of
`T`; `multipleOf_` is always `json::number_float_t` in the source). -/
structure NumCfg where
  maximum_ : Option ℚ := none
  minimum_ : Option ℚ := none
  exclusiveMaximum_ : Bool := false
  exclusiveMinimum_ : Bool := false
  multipleOf_ : Option ℚ := none
deriving DecidableEq

/-- `allOf` / `anyOf` / `oneOf` (`enum logical_combination_types`). -/
inductive CombMode where
  | allOfM | anyOfM | oneOfM
deriving DecidableEq

/-- Compiled validator nodes, one constructor per `class … : public schema`
of the source.  Sub-schema slots that the C++ stores as possibly-null
`shared_ptr<schema>` are `Option Schema` (a null pointer is never
dereferenced by well-formed compiled schemas; where the C++ would
dereference null — undefined behaviour — the model skips, see `SvalOpt`).
`typeS` carries the eight per-type slots of `type_schema::type_` in
`json::value_t` order, then `enum_`/`const_`, the `logic_` list
(push order: not, allOf, anyOf, oneOf) and `if_`/`then_`/`else_`.
`refS` is a `schema_ref`: an index into the arena of one-shot target cells
held by the root (`RootState.refs`). -/
inductive Schema where
  | boolS (true_ : Bool)
  | nullS
  | boolTypeS
  | strS (cfg : StrCfg)
  | numS (cfg : NumCfg)
  | requiredS (required_ : List JKey)
  | objS (maxProperties_ minProperties_ : Option Nat) (required_ : List JKey)
         (properties_ : List (JKey × Option Schema))
         (patternProperties_ : List (JKey × Option Schema))
         (additionalProperties_ : Option Schema)
         (dependencies_ : List (JKey × Option Schema))
         (propertyNames_ : Option Schema)
  | arrS (maxItems_ minItems_ : Option Nat) (uniqueItems_ : Bool)
         (items_schema_ : Option Schema)
         (items_ : List (Option Schema))
         (additionalItems_ : Option Schema)
         (contains_ : Option Schema)
  | notS (subschema_ : Option Schema)
  | combS (mode : CombMode) (subschemata_ : List (Option Schema))
  | typeS (tnull tobject tarray tstring tboolean tint tuns tfloat : Option Schema)
          (enum_ : Option JVal) (const_ : Option JVal)
          (logic_ : List Schema)
          (if_ then_ else_ : Option Schema)
  | refS (idx : Nat)

/-- A URI as the source uses it (`nlohmann::json_uri`): a location plus a
JSON-Pointer fragment.  The pointer is a sequence of unescaped tokens, so
equality is structural (JSON-Pointer escaping is injective, hence this
agrees with the textual equality of `json::json_pointer`).  Only the
fragment-only and location-replacing cases of RFC 3986 `derive` are
modelled; they are the only ones the claims exercise. -/
structure Uri where
  loc : JKey
  ptr : List JKey
deriving DecidableEq

/-- JSON-Pointer unescape of one token: `~1` → `/`, `~0` → `~`
(47 = '/', 126 = '~', 48 = '0', 49 = '1'). -/
def unescapeTok : JKey → JKey
  | [] => []
  | 126 :: 49 :: r => 47 :: unescapeTok r
  | 126 :: 48 :: r => 126 :: unescapeTok r
  | c :: r => c :: unescapeTok r

/-- JSON-Pointer escape of one token (`json_uri::escape`). -/
def escapeTok : JKey → JKey
  | [] => []
  | 47 :: r => 126 :: 49 :: escapeTok r
  | 126 :: r => 126 :: 48 :: escapeTok r
  | c :: r => c :: escapeTok r

/-- Split a byte sequence at a separator byte. -/
def splitBytes (sep : Nat) : JKey → List JKey
  | [] => [[]]
  | c :: r =>
    let rest := splitBytes sep r
    if c = sep then [] :: rest
    else match rest with
      | [] => [[c]]
      | t :: ts => (c :: t) :: ts

/-- Parse a pointer fragment such as `/definitions/x` into its unescaped
tokens (`json::json_pointer`). -/
def parsePtr (s : JKey) : List JKey :=
  match splitBytes 47 s with
  | [] => []
  | _ :: toks => toks.map unescapeTok

/-- Split a reference string at the first `#` into (location, fragment). -/
def splitHash : JKey → JKey × JKey
  | [] => ([], [])
  | 35 :: r => ([], r)
  | c :: r => let (l, f) := splitHash r; (c :: l, f)

/-- `json_uri(str)`: parse a URI string into location and pointer. -/
def uriOfString (s : JKey) : Uri :=
  let (l, f) := splitHash s
  ⟨l, parsePtr f⟩

/-- `uri.append(escape(tok))`: appending the escaped token to the fragment
extends the token sequence by the raw token. -/
def Uri.append (u : Uri) (tok : JKey) : Uri := ⟨u.loc, u.ptr ++ [tok]⟩

/-- `uri.derive(rel)`: fragment-only references keep the location; a
reference with a location part replaces it (relative-path merging of
RFC 3986 is not needed by any claim and is modelled as replacement). -/
def Uri.derive (u : Uri) (rel : JKey) : Uri :=
  let (l, f) := splitHash rel
  if l = [] then ⟨u.loc, parsePtr f⟩ else ⟨l, parsePtr f⟩

/-- `uri.to_string()`: location, `#`, escaped pointer. -/
def Uri.toBytes (u : Uri) : JKey :=
  u.loc ++ [35] ++ (u.ptr.map (fun t => 47 :: escapeTok t)).flatten

/-- One `struct schema_file` of the registry: compiled schemas, unresolved
reference placeholders (as indices into the root's ref arena) and stashed
unknown-keyword fragments, all keyed by JSON-Pointer.  The C++ stores
unknown keywords in a `json` indexed by `json_pointer` (which also exposes
ancestors of a stored pointer); the model stores exact pointers only — no
claim involves unknown keywords. -/
structure SchemaFile where
  schemas : List (List JKey × Schema) := []
  unresolved : List (List JKey × Nat) := []
  unknown_keywords : List (List JKey × JVal) := []

/-- The mutable state of `class root_schema`: the per-location registry,
the arena of `schema_ref` cells `(id, target)` — a cell is unbound while
its target is `none` and is bound at most once by `insert` — and the
compiled root. -/
structure RootState where
  files : List (JKey × SchemaFile) := []
  refs : List (JKey × Option Schema) := []
  root : Option Schema := none

/-- Compilation monad: state plus exception, keeping the state mutated up
to the throw point (C++ exceptions do not roll back the registry). -/
def CompM (α : Type) : Type := RootState → Except CErr α × RootState

instance : Monad CompM where
  pure a := fun st => (.ok a, st)
  bind m f := fun st =>
    match m st with
    | (.ok a, st') => f a st'
    | (.error e, st') => (.error e, st')

/-- Throw a build-time exception. -/
def CompM.throw {α : Type} (e : CErr) : CompM α := fun st => (.error e, st)

/-- Read the whole state. -/
def CompM.get : CompM RootState := fun st => (.ok st, st)

/-- Replace the whole state. -/
def CompM.set (st : RootState) : CompM Unit := fun _ => (.ok (), st)

/-- The file handle for a location, defaulted (`files_[loc]` view). -/
def fileFor (st : RootState) (loc : JKey) : SchemaFile :=
  (lookupA st.files loc).getD {}

/-- Ordered insert/update of a location's file
(`std::map` keeps `files_` sorted by location). -/
def putFile (st : RootState) (loc : JKey) (f : SchemaFile) : RootState :=
  { st with files := insertKv (loc, f) (removeA st.files loc) }

/-- `get_or_create_file`: idempotently materialise the entry for a
location (observable: the resolver loop iterates over all entries). -/
def ensureFile (loc : JKey) : CompM Unit := fun st =>
  (.ok (), putFile st loc (fileFor st loc))

/-- `string::utf8_length`: count the bytes that are not UTF-8 continuation
bytes `10xxxxxx`. -/
def utf8_length : JKey → Nat
  | [] => 0
  | c :: r => if c &&& 0xc0 ≠ 0x80 then utf8_length r + 1 else utf8_length r

/-- `string::validate` (the `format_check_` member is never assigned in
this translation unit, so a present `format` keyword always reports the
missing-checker error). -/
def strValidate (rx : JKey → JKey → Bool) (cfg : StrCfg) (s : JKey) : List Err :=
  (match cfg.minLength_ with
   | some m => if utf8_length s < m then [.tooShort] else []
   | none => []) ++
  (match cfg.maxLength_ with
   | some m => if m < utf8_length s then [.tooLong] else []
   | none => []) ++
  (match cfg.pattern_ with
   | some p => if rx p s then [] else [.patternMismatch]
   | none => []) ++
  (match cfg.format_ with
   | some _ => [.formatCheckerMissing]
   | none => [])

/-- `DBL_EPSILON` = 2⁻⁵² (`std::numeric_limits<double>::epsilon()`). -/
def eps : ℚ := 1 / 2 ^ 52

/-- Truncation toward zero: the semantics of the C cast
`static_cast<json::number_integer_t>(x / multipleOf_.second)`. -/
def ratTrunc (q : ℚ) : ℤ := if 0 ≤ q then ⌊q⌋ else ⌈q⌉

/-- `numeric::violates_multiple_of`: residual of `x` against the multiple
of `m` nearest toward zero, compared with epsilon. -/
def violates_multiple_of (m x : ℚ) : Bool :=
  let n : ℤ := ratTrunc (x / m)
  let res : ℚ := x - n * m
  decide (eps < |res|)

/-- `numeric::validate` on the converted instance value. -/
def numValidate (cfg : NumCfg) (x : ℚ) : List Err :=
  (match cfg.multipleOf_ with
   | some m => if x ≠ 0 ∧ violates_multiple_of m x then [.notMultipleOf] else []
   | none => []) ++
  (match cfg.maximum_ with
   | some mx => if (cfg.exclusiveMaximum_ ∧ mx ≤ x) ∨ mx < x then [.exceedsMaximum] else []
   | none => []) ++
  (match cfg.minimum_ with
   | some mn => if (cfg.exclusiveMinimum_ ∧ x ≤ mn) ∨ x < mn then [.belowMinimum] else []
   | none => [])

/-- The required-names loop shared by `object::validate` (direct `required`)
and `required::validate` (synthesized dependency), differing only in the
message. -/
def requiredErrsWith (mk : JKey → Err) : List JKey → JVal → List Err
  | [], _ => []
  | r :: rest, I =>
    (if (objLookup I r).isNone then [mk r] else []) ++ requiredErrsWith mk rest I

/-- The loop body of `logical_combination<combine_logic>::validate`:
trial-validate each sub-schema with a fresh handler, count passes, with the
mode-dependent early returns of the source. -/
def combLoop (ev : Option Schema → List Err) (mode : CombMode) :
    List (Option Schema) → Nat → List Err
  | [], count =>
    if (mode = .anyOfM ∨ mode = .oneOfM) ∧ count = 0 then [.anyOneOfNone] else []
  | os :: rest, count =>
    let err := ev os
    if err.isEmpty then
      let c := count + 1
      if mode = .oneOfM ∧ 1 < c then [.oneOfMultiple]
      else if mode = .anyOfM ∧ c = 1 then []
      else combLoop ev mode rest c
    else
      if mode = .allOfM then [.allOfFailure]
      else if mode = .oneOfM ∧ 1 < count then [.oneOfMultiple]
      else if mode = .anyOfM ∧ count = 1 then []
      else combLoop ev mode rest count

/-- `for (auto l : logic_) l->validate(instance, e)`. -/
def logicLoop (ev1 : Schema → List Err) : List Schema → List Err
  | [] => []
  | l :: rest => ev1 l ++ logicLoop ev1 rest

/-- The `patternProperties` inner loop of `object::validate`: errors of
every matching pattern's sub-schema, and whether any pattern matched. -/
def ppLoop (rx : JKey → JKey → Bool) (ev : Option Schema → JVal → List Err)
    (key : JKey) (v : JVal) : List (JKey × Option Schema) → List Err × Bool
  | [] => ([], false)
  | (pat, os) :: rest =>
    let (es, m) := ppLoop rx ev key v rest
    if rx pat key then (ev os v ++ es, true) else (es, m)

/-- The per-member loop of `object::validate`: `propertyNames` on the key,
`properties` entry, matching `patternProperties`, and `additionalProperties`
exactly when neither of the former matched. -/
def objMembersLoop (rx : JKey → JKey → Bool) (ev : Option Schema → JVal → List Err)
    (props pprops : List (JKey × Option Schema)) (addp pn : Option Schema) :
    List (JKey × JVal) → List Err
  | [] => []
  | (k, v) :: rest =>
    let pnErrs := match pn with | some s => ev (some s) (.string k) | none => []
    let propHit := lookupA props k
    let propErrs := match propHit with | some os => ev os v | none => []
    let (patErrs, patMatched) := ppLoop rx ev k v pprops
    let addErrs := if propHit.isSome || patMatched then [] else ev addp v
    pnErrs ++ propErrs ++ patErrs ++ addErrs ++
      objMembersLoop rx ev props pprops addp pn rest

/-- The `dependencies` loop of `object::validate`: if the trigger key is
present, validate the whole instance against the dependent validator. -/
def depsLoop (ev : Option Schema → JVal → List Err) (I : JVal) :
    List (JKey × Option Schema) → List Err
  | [] => []
  | (k, os) :: rest =>
    (if (objLookup I k).isSome then ev os I else []) ++ depsLoop ev I rest

/-- Single-`items`-schema loop of `array::validate`. -/
def arrAllLoop (ev : Option Schema → JVal → List Err) (os : Option Schema) :
    List JVal → List Err
  | [] => []
  | i :: rest => ev os i ++ arrAllLoop ev os rest

/-- Positional `items` walk of `array::validate`, falling back to
`additionalItems` when the sequence is exhausted; a missing validator
(`if (!item_validator) break`) ends the walk. -/
def arrPosLoop (ev : Option Schema → JVal → List Err) (addI : Option Schema) :
    List (Option Schema) → List JVal → List Err
  | _, [] => []
  | [], i :: rest =>
    match addI with
    | none => []
    | some s => ev (some s) i ++ arrPosLoop ev addI [] rest
  | io :: irest, i :: rest =>
    match io with
    | none => []
    | some s => ev (some s) i ++ arrPosLoop ev addI irest rest

/-- `contains`: some element validates with a fresh handler. -/
def containsAny (ev : Option Schema → JVal → List Err) (cs : Option Schema) :
    List JVal → Bool
  | [] => false
  | i :: rest => (ev cs i).isEmpty || containsAny ev cs rest

/-- `uniqueItems`: one error per element with an equal later element. -/
def uniqLoop (je : JVal → JVal → Bool) : List JVal → List Err
  | [] => []
  | x :: rest =>
    (if rest.any (je x) then [.itemsNotUnique] else []) ++ uniqLoop je rest

/-- `enum` check of `type_schema::validate`. -/
def enumErrs (je : JVal → JVal → Bool) (en : Option JVal) (I : JVal) : List Err :=
  match en with
  | some ev => if (jIter ev).any (fun e => je I e) then [] else [.enumMismatch]
  | none => []

/-- `const` check of `type_schema::validate`. -/
def constErrs (je : JVal → JVal → Bool) (co : Option JVal) (I : JVal) : List Err :=
  match co with
  | some c => if je c I then [] else [.constMismatch]
  | none => []

/-- The validation engine: `schema::validate(instance, e)` dispatch over
every node class, returning the errors emitted to `e` in order.  `rx` is
the regex oracle, `ar` the root's `schema_ref` arena.  Fuel is consumed
once per node entered; `outOfFuel` models unbounded recursion (possible in
C++ only through reference cycles).  A null sub-schema pointer — never
produced for well-formed schemas, undefined behaviour in C++ — validates
to no errors here (`ev none`). -/
def Sval (rx : JKey → JKey → Bool) :
    Nat → List (JKey × Option Schema) → Schema → JVal → List Err
  | 0, _, _, _ => [.outOfFuel]
  | f + 1, ar, s, I =>
    let ev : Option Schema → JVal → List Err := fun os I' =>
      match os with
      | some s' => Sval rx f ar s' I'
      | none => []
    match s with
    | .boolS t => if t then [] else [.falseSchema]
    | .nullS => match I with | .null => [] | _ => [.expectedNull]
    | .boolTypeS => []
    | .strS cfg => strValidate rx cfg (match I with | .string bs => bs | _ => [])
    | .numS cfg => numValidate cfg (toRat I)
    | .requiredS names => requiredErrsWith .requiredDepNotFound names I
    | .objS mxp mnp req props pprops addp deps pn =>
      let kvs := objMembers I
      (match mxp with | some m => if m < kvs.length then [.tooManyProperties] else [] | none => []) ++
      (match mnp with | some m => if kvs.length < m then [.tooFewProperties] else [] | none => []) ++
      requiredErrsWith .requiredNotFound req I ++
      objMembersLoop rx ev props pprops addp pn kvs ++
      depsLoop ev I deps
    | .arrS mxi mni uniq ischema items addI cont =>
      let xs := match I with | .array l => l | _ => []
      (match mxi with | some m => if m < xs.length then [.tooManyItems] else [] | none => []) ++
      (match mni with | some m => if xs.length < m then [.tooFewItems] else [] | none => []) ++
      (if uniq then uniqLoop (jeq f) xs else []) ++
      (match ischema with
       | some s' => arrAllLoop ev (some s') xs
       | none => arrPosLoop ev addI items xs) ++
      (match cont with
       | some cs => if containsAny ev (some cs) xs then [] else [.containsFailed]
       | none => [])
    | .notS sub => if (ev sub I).isEmpty then [.notFailure] else []
    | .combS mode subs => combLoop (fun os => ev os I) mode subs 0
    | .typeS tn tob tar tst tbo tin tun tfl en co logic if_ then_ else_ =>
      (match jtype I with
       | .tnull => (match tn with | some s' => Sval rx f ar s' I | none => [.unexpectedType])
       | .tobject => (match tob with | some s' => Sval rx f ar s' I | none => [.unexpectedType])
       | .tarray => (match tar with | some s' => Sval rx f ar s' I | none => [.unexpectedType])
       | .tstring => (match tst with | some s' => Sval rx f ar s' I | none => [.unexpectedType])
       | .tboolean => (match tbo with | some s' => Sval rx f ar s' I | none => [.unexpectedType])
       | .tint => (match tin with | some s' => Sval rx f ar s' I | none => [.unexpectedType])
       | .tuns => (match tun with | some s' => Sval rx f ar s' I | none => [.unexpectedType])
       | .tfloat => (match tfl with | some s' => Sval rx f ar s' I | none => [.unexpectedType])) ++
      enumErrs (jeq f) en I ++
      constErrs (jeq f) co I ++
      logicLoop (fun l => Sval rx f ar l I) logic ++
      (match if_ with
       | some ifs =>
         if (Sval rx f ar ifs I).isEmpty then
           match then_ with | some t => Sval rx f ar t I | none => []
         else
           match else_ with | some e => Sval rx f ar e I | none => []
       | none => [])
    | .refS idx =>
      match ar[idx]? with
      | some (_, some t) => Sval rx f ar t I
      | some (id, none) => [.unresolvedRef id]
      | none => [.unresolvedRef []]

/-- `root_schema::validate`: delegate to the compiled root if one has been
assigned, otherwise report that no root schema has yet been set.  The
method is `const`: it never changes the validator's state (reflected here
by returning only the error list). -/
def rootValidate (rx : JKey → JKey → Bool) (vf : Nat) (st : RootState) (I : JVal) : List Err :=
  match st.root with
  | some r => Sval rx vf st.refs r I
  | none => [.noRootSchema]

/-- The type of the recursive compile entry point `schema::make` at one
fuel level lower: helpers that recurse are parameterised by it. -/
abbrev MkFn := JVal → List JKey → List Uri → CompM (Option Schema)

/-- An association list of schema members (a JSON object's members). -/
abbrev Kvs := List (JKey × JVal)

/-- `root_schema::insert(uri, s)`: register the schema at its pointer,
fail on a duplicate, and — the forward-reference back-patch point — if a
placeholder is waiting at this pointer, bind it to `s` (one-shot write into
the ref arena) and drop the `unresolved` entry. -/
def insertSchema (uri : Uri) (s : Schema) : CompM Unit := fun st =>
  let st := putFile st uri.loc (fileFor st uri.loc)
  let file := fileFor st uri.loc
  if (lookupA file.schemas uri.ptr).isSome then
    (.error (.duplicateSchema uri.toBytes), st)
  else
    let file := { file with schemas := (uri.ptr, s) :: file.schemas }
    match lookupA file.unresolved uri.ptr with
    | some idx =>
      let file := { file with unresolved := removeA file.unresolved uri.ptr }
      let st := putFile st uri.loc file
      let refs :=
        match st.refs[idx]? with
        | some (id, _) => st.refs.set idx (id, some s)
        | none => st.refs
      (.ok (), { st with refs := refs })
    | none => (.ok (), putFile st uri.loc file)

/-- `root_schema::insert_unknown_keyword`: if a reference is already
waiting for `uri/key`, compile the fragment right now (which binds the
placeholder through `insert`); otherwise stash it as a potential future
reference target. -/
def insertUnknownKeyword (mk : MkFn) (uri : Uri) (key : JKey) (v : JVal) : CompM Unit := fun st =>
  let st := putFile st uri.loc (fileFor st uri.loc)
  let file := fileFor st uri.loc
  let newUri := uri.append key
  match lookupA file.unresolved newUri.ptr with
  | some _ =>
    match mk v [] [newUri] st with
    | (.ok _, st') => (.ok (), st')
    | (.error e, st') => (.error e, st')
  | none =>
    (.ok (),
     putFile st uri.loc
       { file with unknown_keywords := (newUri.ptr, v) :: file.unknown_keywords })

/-- The placeholder branch of `get_or_create_ref`: reuse the waiting
placeholder at this pointer, or allocate a fresh unbound `schema_ref` cell
in the arena and record it as unresolved. -/
def refCreate (uri : Uri) (st : RootState) : Except CErr (Option Schema) × RootState :=
  let file := fileFor st uri.loc
  match lookupA file.unresolved uri.ptr with
  | some idx => (.ok (some (.refS idx)), st)
  | none =>
    let idx := st.refs.length
    let st := { st with refs := st.refs ++ [(uri.toBytes, none)] }
    let st := putFile st uri.loc { file with unresolved := (uri.ptr, idx) :: file.unresolved }
    (.ok (some (.refS idx)), st)

/-- `root_schema::get_or_create_ref`: an existing schema wins; else an
unknown-keyword fragment at the pointer is promoted (compiled now and
removed from the stash) — exceptions of that compilation are swallowed by
the source's `catch (...)` and fall through to the placeholder branch,
keeping the state mutated so far (`fuelOut`, i.e. divergence, cannot be
caught); else a placeholder. -/
def getOrCreateRef (mk : MkFn) (uri : Uri) : CompM (Option Schema) := fun st =>
  let st := putFile st uri.loc (fileFor st uri.loc)
  let file := fileFor st uri.loc
  match lookupA file.schemas uri.ptr with
  | some s => (.ok (some s), st)
  | none =>
    match lookupA file.unknown_keywords uri.ptr with
    | some subv =>
      (match mk subv [] [uri] st with
       | (.ok s?, st') =>
         let f' := fileFor st' uri.loc
         (.ok s?,
          putFile st' uri.loc
            { f' with unknown_keywords := removeA f'.unknown_keywords uri.ptr })
       | (.error .fuelOut, st') => (.error .fuelOut, st')
       | (.error _, st') => refCreate uri st')
    | none => refCreate uri st

/-- `std::to_string` of a counter, as bytes. -/
def natBytes (n : Nat) : JKey := kb (toString n)

/-- `for (auto &key : keys) for (auto &uri : uris) uri = uri.append(escape(key))`. -/
def appendKeys (uris : List Uri) (keys : List JKey) : List Uri :=
  keys.foldl (fun us k => us.map (fun u => u.append k)) uris

/-- `string::string(sch, root)`: read and erase the string keywords. -/
def stringCtor (kvs : Kvs) : StrCfg × Kvs :=
  let (maxL, kvs) :=
    match lookupA kvs (kb "maxLength") with
    | some v => (some (toSize v), removeA kvs (kb "maxLength"))
    | none => (none, kvs)
  let (minL, kvs) :=
    match lookupA kvs (kb "minLength") with
    | some v => (some (toSize v), removeA kvs (kb "minLength"))
    | none => (none, kvs)
  let (pat, kvs) :=
    match lookupA kvs (kb "pattern") with
    | some v => (some (match v with | .string s => s | _ => ([] : JKey)), removeA kvs (kb "pattern"))
    | none => (none, kvs)
  let (fmt, kvs) :=
    match lookupA kvs (kb "format") with
    | some v => (some (match v with | .string s => s | _ => ([] : JKey)), removeA kvs (kb "format"))
    | none => (none, kvs)
  ({ maxLength_ := maxL, minLength_ := minL, pattern_ := pat, format_ := fmt }, kvs)

/-- `std::set<std::string>::insert`. -/
def kwInsert (kw : List JKey) (k : JKey) : List JKey :=
  if kw.contains k then kw else kw ++ [k]

/-- `numeric<T>::numeric(sch, root, kw)`: read the numeric keywords in
source order — `maximum`, `minimum`, then `exclusiveMaximum` /
`exclusiveMinimum` (each *overwriting* the inclusive bound read before),
then `multipleOf` — collecting the consumed keys into `kw` instead of
erasing (the same fragment feeds up to three numeric instantiations). -/
def numericCtor (kvs : Kvs) (kw : List JKey) : NumCfg × List JKey :=
  let (mx, kw) :=
    match lookupA kvs (kb "maximum") with
    | some v => (some (toRat v), kwInsert kw (kb "maximum"))
    | none => (none, kw)
  let (mn, kw) :=
    match lookupA kvs (kb "minimum") with
    | some v => (some (toRat v), kwInsert kw (kb "minimum"))
    | none => (none, kw)
  let (mx, exMax, kw) :=
    match lookupA kvs (kb "exclusiveMaximum") with
    | some v => (some (toRat v), true, kwInsert kw (kb "exclusiveMaximum"))
    | none => (mx, false, kw)
  let (mn, exMin, kw) :=
    match lookupA kvs (kb "exclusiveMinimum") with
    | some v => (some (toRat v), true, kwInsert kw (kb "exclusiveMinimum"))
    | none => (mn, false, kw)
  let (mo, kw) :=
    match lookupA kvs (kb "multipleOf") with
    | some v => (some (toRat v), kwInsert kw (kb "multipleOf"))
    | none => (none, kw)
  ({ maximum_ := mx, minimum_ := mn, exclusiveMaximum_ := exMax,
     exclusiveMinimum_ := exMin, multipleOf_ := mo }, kw)

/-- The `properties` compile loop (path `{"properties", key}`). -/
def propsLoop (mk : MkFn) (uris : List Uri) : Kvs → CompM (List (JKey × Option Schema))
  | [] => pure []
  | (k, v) :: rest => do
    let s? ← mk v [kb "properties", k] uris
    let r ← propsLoop mk uris rest
    pure ((k, s?) :: r)

/-- The `patternProperties` compile loop (path `{key}` — the source omits
the `patternProperties` segment here). -/
def ppropsLoop (mk : MkFn) (uris : List Uri) : Kvs → CompM (List (JKey × Option Schema))
  | [] => pure []
  | (k, v) :: rest => do
    let s? ← mk v [k] uris
    let r ← ppropsLoop mk uris rest
    pure ((k, s?) :: r)

/-- The `dependencies` compile loop: an array value becomes a synthesized
`required` validator, anything else is compiled as a sub-schema. -/
def depsCtorLoop (mk : MkFn) (uris : List Uri) : Kvs → CompM (List (JKey × Option Schema))
  | [] => pure []
  | (k, v) :: rest => do
    let s? ←
      match v with
      | .array _ => pure (some (Schema.requiredS (toStringList v)))
      | _ => mk v [kb "dependencies", k] uris
    let r ← depsCtorLoop mk uris rest
    pure ((k, s?) :: r)

/-- `object::object(sch, root, uris)`. -/
def objectCtor (mk : MkFn) (kvs : Kvs) (uris : List Uri) : CompM (Schema × Kvs) := do
  let (mxp, kvs) :=
    match lookupA kvs (kb "maxProperties") with
    | some v => (some (toSize v), removeA kvs (kb "maxProperties"))
    | none => (none, kvs)
  let (mnp, kvs) :=
    match lookupA kvs (kb "minProperties") with
    | some v => (some (toSize v), removeA kvs (kb "minProperties"))
    | none => (none, kvs)
  let (req, kvs) :=
    match lookupA kvs (kb "required") with
    | some v => (toStringList v, removeA kvs (kb "required"))
    | none => ([], kvs)
  let (props, kvs) ←
    match lookupA kvs (kb "properties") with
    | some v => do
      let ps ← propsLoop mk uris (objMembers v)
      pure (ps, removeA kvs (kb "properties"))
    | none => pure ([], kvs)
  let (pprops, kvs) ←
    match lookupA kvs (kb "patternProperties") with
    | some v => do
      let ps ← ppropsLoop mk uris (objMembers v)
      pure (ps, removeA kvs (kb "patternProperties"))
    | none => pure ([], kvs)
  let (addp, kvs) ←
    match lookupA kvs (kb "additionalProperties") with
    | some v => do
      let s? ← mk v [kb "additionalProperties"] uris
      pure (s?, removeA kvs (kb "additionalProperties"))
    | none => pure (none, kvs)
  let (deps, kvs) ←
    match lookupA kvs (kb "dependencies") with
    | some v => do
      let ds ← depsCtorLoop mk uris (objMembers v)
      pure (ds, removeA kvs (kb "dependencies"))
    | none => pure ([], kvs)
  let (pn, kvs) ←
    match lookupA kvs (kb "propertyNames") with
    | some v => do
      let s? ← mk v [kb "propertyNames"] uris
      pure (s?, removeA kvs (kb "propertyNames"))
    | none => pure (none, kvs)
  pure (.objS mxp mnp req props pprops addp deps pn, kvs)

/-- The positional-`items` compile loop (path `{"items", to_string(c++)}`). -/
def itemsLoop (mk : MkFn) (uris : List Uri) : Nat → List JVal → CompM (List (Option Schema))
  | _, [] => pure []
  | c, v :: rest => do
    let s? ← mk v [kb "items", natBytes c] uris
    let r ← itemsLoop mk uris (c + 1) rest
    pure (s? :: r)

/-- `array::array(sch, root, uris)`. -/
def arrayCtor (mk : MkFn) (kvs : Kvs) (uris : List Uri) : CompM (Schema × Kvs) := do
  let (mxi, kvs) :=
    match lookupA kvs (kb "maxItems") with
    | some v => (some (toSize v), removeA kvs (kb "maxItems"))
    | none => (none, kvs)
  let (mni, kvs) :=
    match lookupA kvs (kb "minItems") with
    | some v => (some (toSize v), removeA kvs (kb "minItems"))
    | none => (none, kvs)
  let (uniq, kvs) :=
    match lookupA kvs (kb "uniqueItems") with
    | some v => ((match v with | .boolean b => b | _ => false), removeA kvs (kb "uniqueItems"))
    | none => (false, kvs)
  let (ischema, items, addI, kvs) ←
    match lookupA kvs (kb "items") with
    | some v =>
      (match v with
       | .array subs => do
         let its ← itemsLoop mk uris 0 subs
         let (addI, kvs') ←
           match lookupA kvs (kb "additionalItems") with
           | some av => do
             let s? ← mk av [kb "additionalItems"] uris
             pure (s?, removeA kvs (kb "additionalItems"))
           | none => pure ((none : Option Schema), kvs)
         pure ((none : Option Schema), its, addI, removeA kvs' (kb "items"))
       | .object _ => do
         let s? ← mk v [kb "items"] uris
         pure (s?, ([] : List (Option Schema)), (none : Option Schema), removeA kvs (kb "items"))
       | .boolean _ => do
         let s? ← mk v [kb "items"] uris
         pure (s?, ([] : List (Option Schema)), (none : Option Schema), removeA kvs (kb "items"))
       | _ => pure ((none : Option Schema), ([] : List (Option Schema)), (none : Option Schema),
                    removeA kvs (kb "items")))
    | none => pure (none, [], none, kvs)
  let (cont, kvs) ←
    match lookupA kvs (kb "contains") with
    | some v => do
      let s? ← mk v [kb "contains"] uris
      pure (s?, removeA kvs (kb "contains"))
    | none => pure (none, kvs)
  pure (.arrS mxi mni uniq ischema items addI cont, kvs)

/-- `logical_not::logical_not`. -/
def notCtor (mk : MkFn) (v : JVal) (uris : List Uri) : CompM Schema := do
  let s? ← mk v [kb "not"] uris
  pure (.notS s?)

/-- The sub-schema loop of `logical_combination`'s constructor
(path `{key, to_string(c++)}`, iterating the keyword's value as nlohmann
iteration does). -/
def combSubsLoop (mk : MkFn) (key : JKey) (uris : List Uri) :
    Nat → List JVal → CompM (List (Option Schema))
  | _, [] => pure []
  | c, v :: rest => do
    let s? ← mk v [key, natBytes c] uris
    let r ← combSubsLoop mk key uris (c + 1) rest
    pure (s? :: r)

/-- `logical_combination<mode>::logical_combination`. -/
def combCtor (mk : MkFn) (mode : CombMode) (key : JKey) (v : JVal) (uris : List Uri) :
    CompM Schema := do
  let subs ← combSubsLoop mk key uris 0 (jIter v)
  pure (.combS mode subs)

/-- The static `schema_types` table of `type_schema`'s constructor, in
declaration order. -/
def schema_types : List (JKey × JType) :=
  [(kb "null", .tnull), (kb "object", .tobject), (kb "array", .tarray),
   (kb "string", .tstring), (kb "boolean", .tboolean),
   (kb "integer", .tint), (kb "integer", .tuns), (kb "number", .tfloat)]

/-- `type_schema::make`: per-type validator dispatch. -/
def typeSchemaMake (mk : MkFn) (t : JType) (kvs : Kvs) (uris : List Uri) (kw : List JKey) :
    CompM (Option Schema × Kvs × List JKey) :=
  match t with
  | .tnull => pure (some .nullS, kvs, kw)
  | .tuns => let (cfg, kw') := numericCtor kvs kw; pure (some (.numS cfg), kvs, kw')
  | .tint => let (cfg, kw') := numericCtor kvs kw; pure (some (.numS cfg), kvs, kw')
  | .tfloat => let (cfg, kw') := numericCtor kvs kw; pure (some (.numS cfg), kvs, kw')
  | .tstring => let (cfg, kvs') := stringCtor kvs; pure (some (.strS cfg), kvs', kw)
  | .tboolean => pure (some .boolTypeS, kvs, kw)
  | .tobject => do
    let (n, kvs') ← objectCtor mk kvs uris
    pure (some n, kvs', kw)
  | .tarray => do
    let (n, kvs') ← arrayCtor mk kvs uris
    pure (some n, kvs', kw)

/-- The dispatch loop of `type_schema`'s constructor: build the per-type
slot for each selected `(name, type)` pair, threading the (mutated) schema
fragment and the known-keyword set. -/
def dispatchList (mk : MkFn) (uris : List Uri) :
    List (JKey × JType) → Kvs → (JType → Option Schema) → List JKey →
    CompM ((JType → Option Schema) × Kvs × List JKey)
  | [], kvs, sl, kw => pure (sl, kvs, kw)
  | (_, t) :: rest, kvs, sl, kw => do
    let (node?, kvs', kw') ← typeSchemaMake mk t kvs uris kw
    dispatchList mk uris rest kvs' (fun t' => if t' = t then node? else sl t') kw'

/-- `sch.erase(key)` for every collected known keyword. -/
def eraseAll : Kvs → List JKey → Kvs
  | kvs, [] => kvs
  | kvs, k :: r => eraseAll (removeA kvs k) r

/-- The entries of `schema_types` selected by a `"type"` value. -/
def typesFor (tv : JVal) : List (JKey × JType) :=
  match tv with
  | .string tname => schema_types.filter (fun t => t.1 = tname)
  | .array ts =>
    (ts.map (fun v => schema_types.filter
      (fun t => t.1 = (match v with | .string s => s | _ => [])))).flatten
  | _ => []

/-- `type_schema::type_schema(sch, root, uris)`. -/
def typeSchemaCtor (mk : MkFn) (kvs : Kvs) (uris : List Uri) : CompM (Schema × Kvs) := do
  let (sl, kvs, kw) ←
    match lookupA kvs (kb "type") with
    | none => dispatchList mk uris schema_types kvs (fun _ => none) []
    | some tv => do
      let (sl, kvs', kw) ← dispatchList mk uris (typesFor tv) kvs (fun _ => none) []
      pure (sl, removeA kvs' (kb "type"), kw)
  let kvs := eraseAll kvs kw
  let sl :=
    if (sl .tfloat).isSome ∧ (sl .tint).isNone then
      fun t => if t = .tint ∨ t = .tuns then sl .tfloat else sl t
    else sl
  let (en, kvs) :=
    match lookupA kvs (kb "enum") with
    | some v => (some v, removeA kvs (kb "enum"))
    | none => (none, kvs)
  let (co, kvs) :=
    match lookupA kvs (kb "const") with
    | some v => (some v, removeA kvs (kb "const"))
    | none => (none, kvs)
  let (logic, kvs) ←
    match lookupA kvs (kb "not") with
    | some v => do
      let n ← notCtor mk v uris
      pure ([n], removeA kvs (kb "not"))
    | none => pure (([] : List Schema), kvs)
  let (logic, kvs) ←
    match lookupA kvs (kb "allOf") with
    | some v => do
      let n ← combCtor mk .allOfM (kb "allOf") v uris
      pure (logic ++ [n], removeA kvs (kb "allOf"))
    | none => pure (logic, kvs)
  let (logic, kvs) ←
    match lookupA kvs (kb "anyOf") with
    | some v => do
      let n ← combCtor mk .anyOfM (kb "anyOf") v uris
      pure (logic ++ [n], removeA kvs (kb "anyOf"))
    | none => pure (logic, kvs)
  let (logic, kvs) ←
    match lookupA kvs (kb "oneOf") with
    | some v => do
      let n ← combCtor mk .oneOfM (kb "oneOf") v uris
      pure (logic ++ [n], removeA kvs (kb "oneOf"))
    | none => pure (logic, kvs)
  let (if_, then_, else_, kvs) ←
    match lookupA kvs (kb "if") with
    | some iv =>
      if (lookupA kvs (kb "then")).isSome ∨ (lookupA kvs (kb "else")).isSome then do
        let if_ ← mk iv [kb "if"] uris
        let (then_, kvs') ←
          match lookupA kvs (kb "then") with
          | some tv => do
            let t ← mk tv [kb "then"] uris
            pure (t, removeA kvs (kb "then"))
          | none => pure ((none : Option Schema), kvs)
        let (else_, kvs'') ←
          match lookupA kvs' (kb "else") with
          | some ev => do
            let e ← mk ev [kb "else"] uris
            pure (e, removeA kvs' (kb "else"))
          | none => pure ((none : Option Schema), kvs')
        pure (if_, then_, else_, removeA kvs'' (kb "if"))
      else
        pure ((none : Option Schema), (none : Option Schema), (none : Option Schema),
              removeA kvs (kb "if"))
    | none => pure (none, none, none, kvs)
  pure (.typeS (sl .tnull) (sl .tobject) (sl .tarray) (sl .tstring) (sl .tboolean)
          (sl .tint) (sl .tuns) (sl .tfloat) en co logic if_ then_ else_, kvs)

/-- The leftover-member loop at the end of `schema::make`: every key the
constructors did not consume is registered as an unknown keyword. -/
def ukLoop (mk : MkFn) (uri : Uri) : Kvs → CompM Unit
  | [] => pure ()
  | (k, v) :: rest => do
    insertUnknownKeyword mk uri k v
    ukLoop mk uri rest

/-- The insert loop at the end of `schema::make`: for every URI, insert the
node (the source would insert a null pointer when the `$ref` branch
returned one; the model skips, such an entry is never dereferenced by the
claims), then stash the remaining members. -/
def insertLoop (mk : MkFn) (s? : Option Schema) (isObj : Bool) (remaining : Kvs) :
    List Uri → CompM Unit
  | [] => pure ()
  | uri :: rest => do
    (match s? with
     | some s => insertSchema uri s
     | none => pure ())
    (if isObj then ukLoop mk uri remaining else pure ())
    insertLoop mk s? isObj remaining rest

/-- The `definitions` compile loop of `schema::make`. -/
def defsLoop (mk : MkFn) (uris : List Uri) : Kvs → CompM Unit
  | [] => pure ()
  | (k, v) :: rest => do
    let _ ← mk v [kb "definitions", k] uris
    defsLoop mk uris rest

/-- `schema::make(schema, root, keys, uris)`: extend the URIs by the keys;
a boolean value becomes a boolean schema; an object handles `$id`,
compiles `definitions`, then either resolves `$ref` (replacing the sibling
keywords) or builds a `type_schema`; annotation keywords are dropped; the
node is inserted at every URI and the leftovers stashed; any other value
yields a null node without insertion.  Structural on fuel; fuel
exhaustion (`CErr.fuelOut`) models the unbounded recursion the source can
enter through self-referential unknown keywords. -/
def makeSchema : Nat → JVal → List JKey → List Uri → CompM (Option Schema)
  | 0, _, _, _ => CompM.throw .fuelOut
  | f + 1, sch, keys, uris =>
    let mk : MkFn := makeSchema f
    let uris := appendKeys uris keys
    match sch with
    | .boolean b => do
      let s := Schema.boolS b
      insertLoop mk (some s) false [] uris
      pure (some s)
    | .object kvs0 => do
      let (uris, kvs1) :=
        match lookupA kvs0 (kb "$id") with
        | some idv =>
          let idBytes := match idv with | .string s => s | _ => ([] : JKey)
          let uris' :=
            if uris.any (fun u => u.toBytes = idBytes) then uris
            else uris ++ [(uris.getLast?.getD ⟨[], []⟩).derive idBytes]
          (uris', removeA kvs0 (kb "$id"))
        | none => (uris, kvs0)
      let kvs2 ←
        match lookupA kvs1 (kb "definitions") with
        | some dv => do
          defsLoop mk uris (objMembers dv)
          pure (removeA kvs1 (kb "definitions"))
        | none => pure kvs1
      let (s?, kvs3) ←
        match lookupA kvs2 (kb "$ref") with
        | some rv => do
          let rBytes := match rv with | .string s => s | _ => ([] : JKey)
          let id := (uris.getLast?.getD ⟨[], []⟩).derive rBytes
          let s? ← getOrCreateRef mk id
          pure (s?, removeA kvs2 (kb "$ref"))
        | none => do
          let (node, kvs') ← typeSchemaCtor mk kvs2 uris
          pure (some node, kvs')
      let kvs4 :=
        removeA (removeA (removeA (removeA kvs3 (kb "$schema")) (kb "default"))
          (kb "title")) (kb "description")
      insertLoop mk s? true kvs4 uris
      pure s?
    | _ => pure none

/-- One pass of the resolver loop of `set_root_schema`: over a snapshot of
the registered locations, load (via the loader callback) and compile every
location that still has no schemas; absence of the loader is fatal. -/
def passLoop (mk : MkFn) (loader : Option (JKey → Option JVal)) :
    List JKey → Bool → CompM Bool
  | [], flag => pure flag
  | loc :: rest, flag => do
    let st ← CompM.get
    if (fileFor st loc).schemas.isEmpty then
      match loader with
      | some ld =>
        match ld loc with
        | some sch => do
          let _ ← mk sch [] [uriOfString loc]
          passLoop mk loader rest true
        | none => CompM.throw (.loaderFailed loc)
      | none => CompM.throw (.noLoader loc)
    else passLoop mk loader rest flag

/-- The `do … while` of `set_root_schema`: repeat passes until one loads
nothing new. -/
def loaderLoop (mk : MkFn) (loader : Option (JKey → Option JVal)) : Nat → CompM Unit
  | 0 => CompM.throw .fuelOut
  | lf + 1 => do
    let st ← CompM.get
    let flag ← passLoop mk loader (st.files.map Prod.fst) false
    if flag then loaderLoop mk loader lf else pure ()

/-- `root_schema::set_root_schema(schema)`: compile at URI `#` — the root
pointer is assigned *before* the resolver loop runs, so a loop failure
leaves it assigned — then drive the resolver to fixpoint. -/
def setRootSchema (F : Nat) (loader : Option (JKey → Option JVal)) (doc : JVal) :
    CompM Unit := do
  let r ← makeSchema F doc [] [uriOfString (kb "#")]
  let st ← CompM.get
  CompM.set { st with root := r }
  loaderLoop (makeSchema F) loader F

/-- A fresh `json_validator` (fresh `root_schema`). -/
def initState : RootState := {}

/-- End-to-end pipeline for a *document*: parse (normalise member order,
the `std::map` representation), `set_root_schema`, then validate one
instance — returning the build outcome and the validation errors. -/
def buildValidate (rx : JKey → JKey → Bool) (F vf : Nat)
    (loader : Option (JKey → Option JVal)) (doc I : JVal) :
    Except CErr Unit × List Err :=
  let (r, st) := setRootSchema F loader (jnormalize F doc) initState
  (r, rootValidate rx vf st I)

/-- Number of sub-schemas a trial evaluator accepts
(the final value of `count` absent early returns). -/
def passCount (ev : Option Schema → List Err) (subs : List (Option Schema)) : Nat :=
  subs.countP (fun os => (ev os).isEmpty)

theorem combLoop_oneOf (ev : Option Schema → List Err) :
    ∀ (rest : List (Option Schema)) (count : Nat), count ≤ 1 →
      combLoop ev .oneOfM rest count =
        (if count + passCount ev rest = 0 then [.anyOneOfNone]
         else if count + passCount ev rest = 1 then []
         else [.oneOfMultiple]) := by
  intro rest
  induction rest with
  | nil =>
    intro count hc
    interval_cases count <;> simp [combLoop, passCount]
  | cons os rest ih =>
    intro count hc
    by_cases h : (ev os).isEmpty <;>
      simp [combLoop, passCount, List.countP_cons, h] <;>
      interval_cases count <;>
      simp [ih 1 (by omega), ih 0 (by omega), passCount]

theorem combLoop_allOf (ev : Option Schema → List Err) :
    ∀ (rest : List (Option Schema)) (count : Nat),
      combLoop ev .allOfM rest count =
        (if rest.all (fun os => (ev os).isEmpty) then [] else [.allOfFailure]) := by
  intro rest
  induction rest with
  | nil => intro count; simp [combLoop]
  | cons os rest ih =>
    intro count
    by_cases h : (ev os).isEmpty <;> simp [combLoop, h, ih]

/-- The fresh-handler trial evaluation of one (possibly null) sub-schema at
one fuel level lower: the `ev` closure of `Sval`. -/
def SvalOpt (rx : JKey → JKey → Bool) (f : Nat) (ar : List (JKey × Option Schema))
    (I : JVal) : Option Schema → List Err := fun os =>
  match os with
  | some s' => Sval rx f ar s' I
  | none => []

theorem Sval_combS (rx : JKey → JKey → Bool) (f : Nat) (ar : List (JKey × Option Schema))
    (mode : CombMode) (subs : List (Option Schema)) (I : JVal) :
    Sval rx (f + 1) ar (.combS mode subs) I =
      combLoop (SvalOpt rx f ar I) mode subs 0 := rfl

theorem Sval_notS (rx : JKey → JKey → Bool) (f : Nat) (ar : List (JKey × Option Schema))
    (sub : Option Schema) (I : JVal) :
    Sval rx (f + 1) ar (.notS sub) I =
      (if (SvalOpt rx f ar I sub).isEmpty then [.notFailure] else []) := rfl

theorem SvalOpt_some (rx : JKey → JKey → Bool) (f : Nat) (ar : List (JKey × Option Schema))
    (I : JVal) (s : Schema) : SvalOpt rx f ar I (some s) = Sval rx f ar s I := rfl

/-- C3.  For a compiled `oneOf` combinator with sub-schemas `subs` and any
instance `I` (fuel `f` for each sub-schema trial): the outcome is fully
characterised by the number of sub-schemas that accept `I` — no error for
exactly one pass, `OneOfNone` (the shared `ANYOF/ONEOF` message) for zero
passes, and the single early-stop `OneOfMultiple` error as soon as the
running pass count exceeds one; in particular validation passes iff exactly
one sub-schema accepts. -/
theorem oneOf_passes_iff_exactly_one (rx : JKey → JKey → Bool) (f : Nat)
    (ar : List (JKey × Option Schema)) (subs : List Schema) (I : JVal) :
    (Sval rx (f + 1) ar (.combS .oneOfM (subs.map some)) I =
      (if (subs.countP fun s => (Sval rx f ar s I).isEmpty) = 0 then [.anyOneOfNone]
       else if (subs.countP fun s => (Sval rx f ar s I).isEmpty) = 1 then []
       else [.oneOfMultiple]))
    ∧ (Sval rx (f + 1) ar (.combS .oneOfM (subs.map some)) I = [] ↔
        (subs.countP fun s => (Sval rx f ar s I).isEmpty) = 1) := by
  have hcnt : passCount (SvalOpt rx f ar I) (subs.map some) =
      subs.countP fun s => (Sval rx f ar s I).isEmpty := by
    simp [passCount, List.countP_map, Function.comp_def, SvalOpt_some]
  have h := combLoop_oneOf (SvalOpt rx f ar I) (subs.map some) 0 (by omega)
  rw [hcnt] at h
  simp only [Nat.zero_add] at h
  refine ⟨by rw [Sval_combS, h], ?_⟩
  rw [Sval_combS, h]
  rcases Nat.lt_trichotomy (subs.countP fun s => (Sval rx f ar s I).isEmpty) 1 with hlt | heq | hgt
  · interval_cases (subs.countP fun s => (Sval rx f ar s I).isEmpty)
    simp
  · simp [heq]
  · have h0 : (subs.countP fun s => (Sval rx f ar s I).isEmpty) ≠ 0 := by omega
    have h1 : (subs.countP fun s => (Sval rx f ar s I).isEmpty) ≠ 1 := by omega
    simp [h0, h1]

/-- C4.  For a compiled `allOf` combinator with sub-schemas `subs` and any
instance `I`: the caller's handler receives nothing when every sub-schema
accepts, and exactly the single `AllOfFailure` error otherwise (the failing
trials themselves run against fresh internal handlers, so their errors
never surface); in particular validation passes iff every sub-schema
accepts. -/
theorem allOf_passes_iff_all (rx : JKey → JKey → Bool) (f : Nat)
    (ar : List (JKey × Option Schema)) (subs : List Schema) (I : JVal) :
    (Sval rx (f + 1) ar (.combS .allOfM (subs.map some)) I =
      (if subs.all (fun s => (Sval rx f ar s I).isEmpty) then [] else [.allOfFailure]))
    ∧ (Sval rx (f + 1) ar (.combS .allOfM (subs.map some)) I = [] ↔
        ∀ s ∈ subs, Sval rx f ar s I = []) := by
  have hall : ∀ (l : List Schema), ((l.map some).all fun os => (SvalOpt rx f ar I os).isEmpty) =
      l.all (fun s => (Sval rx f ar s I).isEmpty) := by
    intro l
    induction l with
    | nil => rfl
    | cons s rest ih => simp only [List.map_cons, List.all_cons, ih, SvalOpt_some]
  have h := combLoop_allOf (SvalOpt rx f ar I) (subs.map some) 0
  rw [hall subs] at h
  refine ⟨by rw [Sval_combS, h], ?_⟩
  rw [Sval_combS, h]
  by_cases hc : subs.all (fun s => (Sval rx f ar s I).isEmpty)
  · rw [if_pos hc]
    simp only [List.all_eq_true, List.isEmpty_iff] at hc
    simpa using hc
  · rw [if_neg hc]
    simp only [List.all_eq_true, List.isEmpty_iff] at hc
    simp [hc]

/-- C5.  A compiled `not` node trial-validates its sub-schema against a
fresh handler and passes iff the sub-schema rejected, reporting the single
`NotFailure` error iff the sub-schema accepted; consequently `not (not S)`
has the same pass/fail outcome as `S` itself (at the correspondingly
shifted fuel) for every schema `S` and instance `I`. -/
theorem not_inverts_and_double_not_cancels (rx : JKey → JKey → Bool) (f : Nat)
    (ar : List (JKey × Option Schema)) (s : Schema) (I : JVal) :
    (Sval rx (f + 1) ar (.notS (some s)) I =
      (if (Sval rx f ar s I).isEmpty then [.notFailure] else []))
    ∧ (Sval rx (f + 1) ar (.notS (some s)) I = [] ↔ Sval rx f ar s I ≠ [])
    ∧ (Sval rx (f + 2) ar (.notS (some (.notS (some s)))) I = [] ↔
        Sval rx f ar s I = []) := by
  refine ⟨by rw [Sval_notS, SvalOpt_some], ?_, ?_⟩
  · rw [Sval_notS, SvalOpt_some]
    rcases eq_or_ne (Sval rx f ar s I) [] with h | h
    · simp [h]
    · simp [List.isEmpty_iff, h]
  · rw [Sval_notS, SvalOpt_some, Sval_notS, SvalOpt_some]
    rcases eq_or_ne (Sval rx f ar s I) [] with h | h
    · simp [h]
    · simp [List.isEmpty_iff, h]

theorem utf8_length_counts_noncontinuation (s : JKey) :
    utf8_length s = (s.filter (fun c => decide (c &&& 0xc0 ≠ 0x80))).length := by
  induction s with
  | nil => rfl
  | cons c r ih =>
    by_cases h : c &&& 0xc0 ≠ 0x80 <;> simp [utf8_length, List.filter, h, ih]

/-- C6.  String length constraints count Unicode code points via the
number of bytes that are not `10xxxxxx` continuation bytes: `utf8_length`
is exactly that byte count, `minLength`/`maxLength` violations are decided
against it, and for the compiled `{"minLength": 2}` validator the two-byte
one-code-point instance `"ä"` (`C3 A4`) and the instance `"a"` report
`StringTooShort` while `"ab"` passes. -/
theorem string_length_in_code_points (rx : JKey → JKey → Bool) (f : Nat)
    (ar : List (JKey × Option Schema)) (cfg : StrCfg) (m : Nat) (s : JKey)
    (hmin : cfg.minLength_ = some m) :
    (utf8_length s = (s.filter (fun c => decide (c &&& 0xc0 ≠ 0x80))).length)
    ∧ (Err.tooShort ∈ strValidate rx cfg s ↔ utf8_length s < m)
    ∧ ((stringCtor [(kb "minLength", .numUns 2)]).1.minLength_ = some 2)
    ∧ (Sval rx (f + 1) ar (.strS (stringCtor [(kb "minLength", .numUns 2)]).1)
        (.string [0xc3, 0xa4]) = [.tooShort])
    ∧ (Sval rx (f + 1) ar (.strS (stringCtor [(kb "minLength", .numUns 2)]).1)
        (.string (kb "ab")) = [])
    ∧ (Sval rx (f + 1) ar (.strS (stringCtor [(kb "minLength", .numUns 2)]).1)
        (.string (kb "a")) = [.tooShort]) := by
  refine ⟨utf8_length_counts_noncontinuation s, ?_, rfl, rfl, rfl, rfl⟩
  obtain ⟨maxL, minL, pat, fmt⟩ := cfg
  simp only at hmin
  subst hmin
  simp only [strValidate, List.mem_append]
  cases maxL <;> cases pat <;> cases fmt <;> simp

/-- The residual test in the *claim's* words: `|x − round(x/m)·m|` exceeds
the floating-point epsilon, with `round` rounding to the nearest integer
(for comparison with the code's truncation toward zero). -/
def residualRoundExceeds (m x : ℚ) : Prop :=
  eps < |x - ((round (x / m) : ℤ) : ℚ) * m|

theorem c6_string_witness :
    Err.tooShort ∈ strValidate (fun _ _ => false) { minLength_ := some 2 } [0xc3, 0xa4] :=
  ((string_length_in_code_points (fun _ _ => false) 0 [] { minLength_ := some 2 } 2
      [0xc3, 0xa4] rfl).2.1).mpr (by decide)

/-- C7 counterexample.  At `m = 1` and the largest `double` below one,
`x = 1 − 2⁻⁵³` (all `double` operations on these values are exact), the
code computes `n = trunc(x/m) = 0` and residual `x`, which exceeds epsilon,
so it reports `NotMultipleOf` — while the claim's formula
`|x − round(x/m)·m| = 2⁻⁵³` does not exceed epsilon `2⁻⁵²`, so the claim
says no error is reported.  The "zero always passes" half of the claim does
hold. -/
theorem multipleOf_round_counterexample :
    numValidate { multipleOf_ := some 1 } (1 - 1 / 2 ^ 53) = [.notMultipleOf]
    ∧ ¬ residualRoundExceeds 1 (1 - 1 / 2 ^ 53) := by
  have hfl : ratTrunc ((1 - 1 / 2 ^ 53 : ℚ) / 1) = 0 := by
    rw [div_one, ratTrunc, if_pos (by norm_num)]
    rw [Int.floor_eq_zero_iff]
    constructor <;> norm_num
  have hv : violates_multiple_of 1 (1 - 1 / 2 ^ 53) = true := by
    simp only [violates_multiple_of, hfl]
    rw [decide_eq_true_eq]
    rw [abs_of_nonneg (by norm_num)]
    norm_num [eps]
  constructor
  · simp only [numValidate, hv]
    norm_num
  · unfold residualRoundExceeds
    have hr : round ((1 - 1 / 2 ^ 53 : ℚ) / 1) = 1 := by
      rw [div_one, round_eq]
      rw [show (1 - 1 / 2 ^ 53 + 1 / 2 : ℚ) = 3 / 2 - 1 / 2 ^ 53 by ring]
      rw [Int.floor_eq_iff]
      constructor <;> norm_num
    rw [hr]
    rw [show (1 - 1 / 2 ^ 53 - (1 : ℤ) * 1 : ℚ) = -(1 / 2 ^ 53) by push_cast; ring]
    rw [abs_neg, abs_of_nonneg (by norm_num)]
    norm_num [eps]

/-- C7 amended.  A compiled numeric validator with `multipleOf m` applies
the check only to non-zero instance values (zero always passes) and reports
`NotMultipleOf` iff the absolute residual `|x − trunc(x/m)·m|` exceeds the
floating-point epsilon, where `trunc` truncates toward zero — the `C`
integer cast the code performs — rather than rounding to nearest. -/
theorem multipleOf_truncation_characterization (m x : ℚ) :
    (numValidate { multipleOf_ := some m } x =
      if x ≠ 0 ∧ eps < |x - (ratTrunc (x / m) : ℚ) * m| then [.notMultipleOf] else [])
    ∧ numValidate { multipleOf_ := some m } 0 = [] := by
  constructor
  · by_cases hx : x = 0
    · subst hx
      simp [numValidate, violates_multiple_of]
    · by_cases hv : eps < |x - (ratTrunc (x / m) : ℚ) * m|
      · simp [numValidate, violates_multiple_of, hx, hv]
      · simp [numValidate, violates_multiple_of, hx, hv]
  · simp [numValidate, violates_multiple_of]

/-- C9.  When a numeric fragment contains both `maximum` and
`exclusiveMaximum` (and both `minimum` and `exclusiveMinimum`), the
constructor stores one bound per direction: the exclusive keyword's value
*overwrites* the inclusive one read just before (the conclusion does not
depend on `va`/`vc`, the inclusive values), the exclusive flags are set,
and validation consequently enforces only the exclusive bound's value, as
a strict bound (`value ≥ maximum_` resp. `value ≤ minimum_`). -/
theorem exclusive_bounds_overwrite (kvs : Kvs) (kw : List JKey) (va vb vc vd : JVal)
    (hmax : lookupA kvs (kb "maximum") = some va)
    (hemax : lookupA kvs (kb "exclusiveMaximum") = some vb)
    (hmin : lookupA kvs (kb "minimum") = some vc)
    (hemin : lookupA kvs (kb "exclusiveMinimum") = some vd)
    (hmo : lookupA kvs (kb "multipleOf") = none) :
    ((numericCtor kvs kw).1 =
      { maximum_ := some (toRat vb), minimum_ := some (toRat vd),
        exclusiveMaximum_ := true, exclusiveMinimum_ := true, multipleOf_ := none })
    ∧ ∀ x : ℚ, numValidate (numericCtor kvs kw).1 x =
        (if toRat vb ≤ x then [.exceedsMaximum] else []) ++
        (if x ≤ toRat vd then [.belowMinimum] else []) := by
  have hcfg : (numericCtor kvs kw).1 =
      { maximum_ := some (toRat vb), minimum_ := some (toRat vd),
        exclusiveMaximum_ := true, exclusiveMinimum_ := true, multipleOf_ := none } := by
    simp [numericCtor, hmax, hemax, hmin, hemin, hmo]
  refine ⟨hcfg, fun x => ?_⟩
  rw [hcfg]
  have hor : ∀ a b : ℚ, (a ≤ b ∨ a < b) ↔ a ≤ b := fun a b => or_iff_left_of_imp le_of_lt
  simp [numValidate, hor]

theorem c9_exclusive_bounds_witness :
    (numericCtor [(kb "maximum", .numUns 5), (kb "exclusiveMaximum", .numUns 3),
                  (kb "minimum", .numUns 0), (kb "exclusiveMinimum", .numUns 1)] []).1 =
      { maximum_ := some (toRat (.numUns 3)), minimum_ := some (toRat (.numUns 1)),
        exclusiveMaximum_ := true, exclusiveMinimum_ := true, multipleOf_ := none } :=
  (exclusive_bounds_overwrite
    [(kb "maximum", .numUns 5), (kb "exclusiveMaximum", .numUns 3),
     (kb "minimum", .numUns 0), (kb "exclusiveMinimum", .numUns 1)] []
    (.numUns 5) (.numUns 3) (.numUns 0) (.numUns 1) rfl rfl rfl rfl rfl).1

theorem ppLoop_matched (rx : JKey → JKey → Bool) (ev : Option Schema → JVal → List Err)
    (k : JKey) (v : JVal) :
    ∀ pprops : List (JKey × Option Schema),
      (ppLoop rx ev k v pprops).2 = pprops.any (fun pp => rx pp.1 k) := by
  intro pprops
  induction pprops with
  | nil => rfl
  | cons pp rest ih =>
    obtain ⟨pat, os⟩ := pp
    by_cases h : rx pat k <;> simp [ppLoop, h, ih]

/-- The per-member semantics in the *claim's* words, written independently
of the loop's matched-flag threading: `propertyNames` errors, the
`properties` entry's errors, each matching pattern's errors, and the
`additionalProperties` errors exactly when the key neither appears in
`properties` nor matches any `patternProperties` regex. -/
def memberSpecErrs (rx : JKey → JKey → Bool) (ev : Option Schema → JVal → List Err)
    (props pprops : List (JKey × Option Schema)) (addp pn : Option Schema)
    (k : JKey) (v : JVal) : List Err :=
  (match pn with | some s => ev (some s) (.string k) | none => []) ++
  (match lookupA props k with | some os => ev os v | none => []) ++
  (ppLoop rx ev k v pprops).1 ++
  (if (lookupA props k).isNone ∧ !(pprops.any fun pp => rx pp.1 k) then ev addp v
   else [])

/-- The document of C8's concrete scenarios. -/
def exDoc8 : JVal := .object
  [(kb "type", .string (kb "object")),
   (kb "required", .array [.string (kb "a")]),
   (kb "properties", .object [(kb "a", .object [(kb "type", .string (kb "integer"))])]),
   (kb "additionalProperties", .boolean false)]

/-- C8.  The member loop of the compiled object validator equals, member
by member, the claim's semantics: `additionalProperties` is applied to a
member's value iff the key neither appears in `properties` nor matches any
`patternProperties` regex; and for the compiled document
`{"type":"object","required":["a"],"properties":{"a":{"type":"integer"}},
"additionalProperties":false}` the instance `{"a":1}` passes, `{}` reports
`MissingRequired`, and `{"a":1,"b":2}` reports `FalseSchema` (emitted
while processing member `b`). -/
theorem additionalProperties_applied_iff_unmatched (rx : JKey → JKey → Bool)
    (ev : Option Schema → JVal → List Err)
    (props pprops : List (JKey × Option Schema)) (addp pn : Option Schema)
    (kvs : List (JKey × JVal)) :
    (objMembersLoop rx ev props pprops addp pn kvs =
      (kvs.map (fun p => memberSpecErrs rx ev props pprops addp pn p.1 p.2)).flatten)
    ∧ (buildValidate (fun _ _ => false) 20 20 none exDoc8
        (.object [(kb "a", .numUns 1)]) = (.ok (), []))
    ∧ (buildValidate (fun _ _ => false) 20 20 none exDoc8
        (.object []) = (.ok (), [.requiredNotFound (kb "a")]))
    ∧ (buildValidate (fun _ _ => false) 20 20 none exDoc8
        (.object [(kb "a", .numUns 1), (kb "b", .numUns 2)]) = (.ok (), [.falseSchema])) := by
  refine ⟨?_, rfl, rfl, rfl⟩
  induction kvs with
  | nil => rfl
  | cons p rest ih =>
    obtain ⟨k, v⟩ := p
    rw [List.map_cons, List.flatten_cons, ← ih]
    simp only [objMembersLoop]
    rw [ppLoop_matched]
    unfold memberSpecErrs
    rcases hp : lookupA props k with _ | os <;>
      by_cases ha : pprops.any (fun pp => rx pp.1 k) <;>
      simp [hp, ha, List.append_assoc]

theorem keyLtb_irrefl : ∀ a : JKey, keyLtb a a = false := by
  intro a
  induction a with
  | nil => rfl
  | cons c r ih => simp [keyLtb, ih]

theorem keyLtb_asymm : ∀ a b : JKey, keyLtb a b = true → keyLtb b a = false := by
  intro a
  induction a with
  | nil =>
    intro b hab
    cases b with
    | nil => rfl
    | cons y ys => rfl
  | cons x xs ih =>
    intro b hab
    cases b with
    | nil => simp [keyLtb] at hab
    | cons y ys =>
      simp only [keyLtb] at hab ⊢
      split_ifs at hab ⊢ <;> first | rfl | omega | exact ih ys hab

theorem keyLtb_false_trans :
    ∀ a b c : JKey, keyLtb a b = false → keyLtb b c = false → keyLtb a c = false := by
  intro a
  induction a with
  | nil =>
    intro b c hab hbc
    cases b with
    | nil => exact hbc
    | cons y ys => simp [keyLtb] at hab
  | cons x xs ih =>
    intro b c hab hbc
    cases b with
    | nil =>
      cases c with
      | nil => rfl
      | cons z zs => simp [keyLtb] at hbc
    | cons y ys =>
      cases c with
      | nil => rfl
      | cons z zs =>
        simp only [keyLtb] at hab hbc ⊢
        split_ifs at hab hbc ⊢ <;>
          first | rfl | omega | exact ih ys zs hab hbc

theorem keyLtb_false_eq : ∀ a b : JKey, keyLtb a b = false → keyLtb b a = false → a = b := by
  intro a
  induction a with
  | nil =>
    intro b hab _
    cases b with
    | nil => rfl
    | cons y ys => simp [keyLtb] at hab
  | cons x xs ih =>
    intro b hab hba
    cases b with
    | nil => simp [keyLtb] at hba
    | cons y ys =>
      simp only [keyLtb] at hab hba
      split_ifs at hab hba
      rw [ih ys hab hba]
      congr 1
      omega

/-- Sortedness by key: no later entry's key is lexicographically below an
earlier one (the invariant of a `std::map`'s entry sequence). -/
def KvsSorted {β : Type} (l : List (JKey × β)) : Prop :=
  l.Pairwise (fun p q => keyLtb q.1 p.1 = false)

theorem insertKv_perm {β : Type} (p : JKey × β) :
    ∀ l : List (JKey × β), (insertKv p l).Perm (p :: l) := by
  intro l
  induction l with
  | nil => exact List.Perm.refl _
  | cons q qs ih =>
    simp only [insertKv]
    split_ifs with h
    · exact (ih.cons q).trans (List.Perm.swap p q qs)
    · exact List.Perm.refl _

theorem sortKvs_perm {β : Type} : ∀ l : List (JKey × β), (sortKvs l).Perm l := by
  intro l
  induction l with
  | nil => exact List.Perm.refl _
  | cons p ps ih => exact (insertKv_perm p (sortKvs ps)).trans (ih.cons p)

theorem insertKv_sorted {β : Type} (p : JKey × β) :
    ∀ l : List (JKey × β), KvsSorted l → KvsSorted (insertKv p l) := by
  intro l
  induction l with
  | nil => intro _; simp [insertKv, KvsSorted]
  | cons q qs ih =>
    intro hs
    cases hs with
    | cons hq hqs =>
      simp only [insertKv]
      split_ifs with h
      · refine List.Pairwise.cons ?_ (ih hqs)
        intro r hr
        have hr' : r ∈ p :: qs := (insertKv_perm p qs).mem_iff.mp hr
        rcases List.mem_cons.mp hr' with rfl | hrq
        · exact keyLtb_asymm _ _ h
        · exact hq r hrq
      · refine List.Pairwise.cons ?_ (List.Pairwise.cons hq hqs)
        intro r hr
        rcases List.mem_cons.mp hr with rfl | hrq
        · simpa using h
        · exact keyLtb_false_trans _ _ _ (hq r hrq) (by simpa using h)

theorem sortKvs_sorted {β : Type} : ∀ l : List (JKey × β), KvsSorted (sortKvs l) := by
  intro l
  induction l with
  | nil => exact List.Pairwise.nil
  | cons p ps ih => exact insertKv_sorted p _ ih

/-- Two key-sorted association lists that are permutations of one another,
with duplicate-free keys, are equal: the `std::map` entry sequence is
canonical. -/
theorem sorted_perm_eq {β : Type} :
    ∀ (l l' : List (JKey × β)), l.Perm l' → KvsSorted l → KvsSorted l' →
      (l.map Prod.fst).Nodup → l = l' := by
  intro l
  induction l with
  | nil =>
    intro l' hp _ _ _
    exact hp.symm.eq_nil.symm
  | cons p rest ih =>
    intro l' hp hs hs' hnd
    cases l' with
    | nil => simp at hp
    | cons p' rest' =>
      cases hs with
      | cons hle hsr =>
        cases hs' with
        | cons hle' hsr' =>
          simp only [List.map_cons] at hnd
          cases hnd with
          | cons hne hndr =>
            have hpeq : p = p' := by
              have hpmem : p ∈ p' :: rest' := hp.mem_iff.mp (List.mem_cons_self p rest)
              rcases List.mem_cons.mp hpmem with h1 | h1
              · exact h1
              · have hp'mem : p' ∈ p :: rest :=
                  hp.symm.mem_iff.mp (List.mem_cons_self p' rest')
                rcases List.mem_cons.mp hp'mem with h2 | h2
                · exact h2.symm
                · have k1 : keyLtb p'.1 p.1 = false := hle p' h2
                  have k2 : keyLtb p.1 p'.1 = false := hle' p h1
                  have hk : p.1 = p'.1 := keyLtb_false_eq _ _ k2 k1
                  exact absurd hk (hne p'.1 (List.mem_map_of_mem Prod.fst h2))
            subst hpeq
            have hrest : rest.Perm rest' := hp.cons_inv
            rw [ih rest' hrest hsr hsr' hndr]

/-- Member-order reordering of a JSON *document*: `DocPerm a b` holds when
`b` is `a` with the members of any of its objects permuted (values related
recursively, keys duplicate-free so the reordering is unambiguous) and
everything else unchanged.  A topological reordering of a schema document —
moving `$ref` targets ahead of their uses — is exactly such a permutation
of members. -/
inductive DocPerm : JVal → JVal → Prop where
  | nullP : DocPerm .null .null
  | booleanP (b : Bool) : DocPerm (.boolean b) (.boolean b)
  | numIntP (n : Int) : DocPerm (.numInt n) (.numInt n)
  | numUnsP (n : Nat) : DocPerm (.numUns n) (.numUns n)
  | numFloatP (q : ℚ) : DocPerm (.numFloat q) (.numFloat q)
  | stringP (s : JKey) : DocPerm (.string s) (.string s)
  | arrayP {xs ys : List JVal} :
      List.Forall₂ DocPerm xs ys → DocPerm (.array xs) (.array ys)
  | objectP {kvs mid kvs' : List (JKey × JVal)} :
      (kvs.map Prod.fst).Nodup →
      kvs.map Prod.fst = mid.map Prod.fst →
      List.Forall₂ DocPerm (kvs.map Prod.snd) (mid.map Prod.snd) →
      mid.Perm kvs' →
      DocPerm (.object kvs) (.object kvs')

theorem normKvs_eq_map (nrm : JVal → JVal) :
    ∀ l : List (JKey × JVal), normKvs nrm l = l.map (fun p => (p.1, nrm p.2)) := by
  intro l
  induction l with
  | nil => rfl
  | cons p r ih => obtain ⟨k, v⟩ := p; simp [normKvs, ih]

/-- Reordered documents have the same parsed (`std::map`-normalised) form:
the JSON data model erases member order. -/
theorem docPerm_jnormalize :
    ∀ (f : Nat) (a b : JVal), DocPerm a b → jnormalize f a = jnormalize f b := by
  intro f
  induction f with
  | zero => intro a b _; rfl
  | succ f ih =>
    intro a b h
    cases h with
    | nullP => rfl
    | booleanP b => rfl
    | numIntP n => rfl
    | numUnsP n => rfl
    | numFloatP q => rfl
    | stringP s => rfl
    | arrayP hf =>
      simp only [jnormalize]
      congr 1
      induction hf with
      | nil => rfl
      | cons hxy hrest ihl => simp [normList, ih _ _ hxy, ihl]
    | objectP hnd hkeys hf hperm =>
      rename_i kvs mid kvs'
      simp only [jnormalize]
      congr 1
      have hmid : ∀ (ps qs : List (JKey × JVal)),
          ps.map Prod.fst = qs.map Prod.fst →
          List.Forall₂ DocPerm (ps.map Prod.snd) (qs.map Prod.snd) →
          normKvs (jnormalize f) ps = normKvs (jnormalize f) qs := by
        intro ps
        induction ps with
        | nil =>
          intro qs hk _
          cases qs with
          | nil => rfl
          | cons q qs => simp at hk
        | cons p ps ihp =>
          intro qs hk hv
          cases qs with
          | nil => simp at hk
          | cons q qs =>
            obtain ⟨k, v⟩ := p
            obtain ⟨k', w⟩ := q
            simp only [List.map_cons, List.cons.injEq] at hk hv
            cases hv with
            | cons hvw hrest =>
              obtain ⟨hk1, hk2⟩ := hk
              subst hk1
              simp [normKvs, ih _ _ hvw, ihp qs hk2 hrest]
      have hmid := hmid kvs mid hkeys hf
      have hpm : (normKvs (jnormalize f) mid).Perm (normKvs (jnormalize f) kvs') := by
        rw [normKvs_eq_map, normKvs_eq_map]
        exact hperm.map _
      have hpm' : (normKvs (jnormalize f) kvs).Perm (normKvs (jnormalize f) kvs') := by
        rw [hmid]; exact hpm
      have hkeys : ((normKvs (jnormalize f) kvs).map Prod.fst).Nodup := by
        rw [normKvs_eq_map]
        have : (kvs.map (fun p => (p.1, jnormalize f p.2))).map Prod.fst = kvs.map Prod.fst := by
          simp [List.map_map, Function.comp_def]
        rw [this]
        exact hnd
      have hkeys' : ((sortKvs (normKvs (jnormalize f) kvs)).map Prod.fst).Nodup := by
        have hp : ((sortKvs (normKvs (jnormalize f) kvs)).map Prod.fst).Perm
            ((normKvs (jnormalize f) kvs).map Prod.fst) :=
          (sortKvs_perm _).map _
        exact hp.nodup_iff.mpr hkeys
      exact sorted_perm_eq _ _
        (((sortKvs_perm _).trans hpm').trans (sortKvs_perm _).symm)
        (sortKvs_sorted _) (sortKvs_sorted _) hkeys'

/-- C1's forward-`$ref` document: the `$ref` use (under `properties`)
precedes its target (under `definitions`) in document order. -/
def exDoc1 : JVal := .object
  [(kb "properties", .object [(kb "p", .object [(kb "$ref", .string (kb "#/definitions/x"))])]),
   (kb "definitions", .object [(kb "x", .object [(kb "type", .string (kb "boolean"))])])]

/-- `exDoc1` topologically reordered: the `$ref` target precedes its use. -/
def exDoc1R : JVal := .object
  [(kb "definitions", .object [(kb "x", .object [(kb "type", .string (kb "boolean"))])]),
   (kb "properties", .object [(kb "p", .object [(kb "$ref", .string (kb "#/definitions/x"))])])]

/-- C1.  Validation is invariant under reordering of document members
(`DocPerm` covers in particular every topological reordering that moves
`$ref` targets ahead of their uses): the full pipeline — parse into the
`std::map`-backed JSON representation, `set_root_schema`, validate —
produces the same build outcome and the same error sequence for a document
and any member reordering of it, for every instance, loader, fuel and
regex oracle.  For the concrete forward-reference document `exDoc1`,
instance `{"p": true}` passes and `{"p": 1}` reports `UnexpectedType`. -/
theorem forward_ref_reorder_equivalence (S S' : JVal) (h : DocPerm S S')
    (rx : JKey → JKey → Bool) (F vf : Nat) (loader : Option (JKey → Option JVal))
    (I : JVal) :
    (buildValidate rx F vf loader S I = buildValidate rx F vf loader S' I)
    ∧ (buildValidate (fun _ _ => false) 20 20 none exDoc1
        (.object [(kb "p", .boolean true)]) = (.ok (), []))
    ∧ (buildValidate (fun _ _ => false) 20 20 none exDoc1
        (.object [(kb "p", .numUns 1)]) = (.ok (), [.unexpectedType])) := by
  refine ⟨?_, rfl, rfl⟩
  unfold buildValidate
  rw [docPerm_jnormalize F S S' h]

theorem c1_reorder_witness :
    buildValidate (fun _ _ => false) 20 20 none exDoc1 (.object [(kb "p", .boolean true)]) =
      buildValidate (fun _ _ => false) 20 20 none exDoc1R (.object [(kb "p", .boolean true)]) := by
  have hX : DocPerm (.object [(kb "type", .string (kb "boolean"))])
      (.object [(kb "type", .string (kb "boolean"))]) :=
    .objectP (by decide) rfl (List.Forall₂.cons (.stringP _) List.Forall₂.nil) (List.Perm.refl _)
  have hD : DocPerm (.object [(kb "x", .object [(kb "type", .string (kb "boolean"))])])
      (.object [(kb "x", .object [(kb "type", .string (kb "boolean"))])]) :=
    .objectP (by decide) rfl (List.Forall₂.cons hX List.Forall₂.nil) (List.Perm.refl _)
  have hR : DocPerm (.object [(kb "$ref", .string (kb "#/definitions/x"))])
      (.object [(kb "$ref", .string (kb "#/definitions/x"))]) :=
    .objectP (by decide) rfl (List.Forall₂.cons (.stringP _) List.Forall₂.nil) (List.Perm.refl _)
  have hP : DocPerm
      (.object [(kb "p", .object [(kb "$ref", .string (kb "#/definitions/x"))])])
      (.object [(kb "p", .object [(kb "$ref", .string (kb "#/definitions/x"))])]) :=
    .objectP (by decide) rfl (List.Forall₂.cons hR List.Forall₂.nil) (List.Perm.refl _)
  have hdp : DocPerm exDoc1 exDoc1R :=
    .objectP (by decide) rfl (List.Forall₂.cons hP (List.Forall₂.cons hD List.Forall₂.nil))
      (List.Perm.swap
        (kb "definitions", JVal.object [(kb "x", JVal.object [(kb "type", JVal.string (kb "boolean"))])])
        (kb "properties", JVal.object [(kb "p", JVal.object [(kb "$ref", JVal.string (kb "#/definitions/x"))])])
        [])
  exact (forward_ref_reorder_equivalence exDoc1 exDoc1R hdp (fun _ _ => false) 20 20 none
    (.object [(kb "p", .boolean true)])).1

/-- C2's refuting document: a `$ref` to a pointer that is never inserted. -/
def exDoc2 : JVal := .object [(kb "$ref", .string (kb "#/definitions/missing"))]

/-- C2 counterexample.  `set_root_schema` on
`{"$ref": "#/definitions/missing"}` returns without throwing — the
resolver loop only loads *locations* with no schemas at all, it never
checks the `unresolved` map — yet the compiled root is an unbound
placeholder and every subsequent `validate` reports `UnresolvedRef`. -/
theorem set_root_schema_leaves_dangling_ref :
    ((setRootSchema 20 none (jnormalize 20 exDoc2) initState).1 = .ok ())
    ∧ (rootValidate (fun _ _ => false) 20
        (setRootSchema 20 none (jnormalize 20 exDoc2) initState).2 .null =
        [.unresolvedRef (kb "#/definitions/missing")]) := ⟨rfl, rfl⟩

theorem lookupA_removeA_self {α β : Type} [DecidableEq α] (k : α) :
    ∀ l : List (α × β), lookupA (removeA l k) k = none := by
  intro l
  induction l with
  | nil => rfl
  | cons p r ih =>
    obtain ⟨a, b⟩ := p
    by_cases h : a = k <;> simp [removeA, lookupA, h, ih]

theorem lookupA_insertKv {β : Type} (k : JKey) (v : β) :
    ∀ l : List (JKey × β), lookupA l k = none →
      lookupA (insertKv (k, v) l) k = some v := by
  intro l
  induction l with
  | nil => intro _; simp [insertKv, lookupA]
  | cons q qs ih =>
    intro h
    obtain ⟨a, b⟩ := q
    by_cases ha : a = k
    · simp [lookupA, ha] at h
    · simp only [lookupA, if_neg ha] at h
      simp only [insertKv]
      split_ifs with hlt
      · simp [lookupA, ha, ih h]
      · simp [lookupA]

theorem fileFor_putFile (st : RootState) (loc : JKey) (f : SchemaFile) :
    fileFor (putFile st loc f) loc = f := by
  simp [fileFor, putFile, lookupA_insertKv _ _ _ (lookupA_removeA_self loc st.files)]

/-- C2 amended.  The back-patch invariant of `root_schema::insert`: when a
schema is inserted at a pointer where a reference placeholder is waiting
(and no duplicate schema exists there), the insertion succeeds, the
placeholder's one-shot arena cell is bound to exactly the inserted schema,
the pointer leaves the `unresolved` map, and the schema is registered.
A placeholder whose pointer never receives an insertion stays unbound
through a successful `set_root_schema` and reports `UnresolvedRef` at
validation time (see the counterexample). -/
theorem putFile_refs (st : RootState) (loc : JKey) (f : SchemaFile) :
    (putFile st loc f).refs = st.refs := rfl

theorem fileFor_update_refs (st : RootState) (r : List (JKey × Option Schema)) (loc : JKey) :
    fileFor { st with refs := r } loc = fileFor st loc := rfl

theorem insert_binds_waiting_placeholder (st : RootState) (uri : Uri) (s : Schema)
    (idx : Nat) (id : JKey) (tgt : Option Schema)
    (hw : lookupA (fileFor st uri.loc).unresolved uri.ptr = some idx)
    (hdup : lookupA (fileFor st uri.loc).schemas uri.ptr = none)
    (hcell : st.refs[idx]? = some (id, tgt)) :
    ((insertSchema uri s st).1 = .ok ())
    ∧ ((insertSchema uri s st).2.refs[idx]? = some (id, some s))
    ∧ (lookupA (fileFor (insertSchema uri s st).2 uri.loc).unresolved uri.ptr = none)
    ∧ (lookupA (fileFor (insertSchema uri s st).2 uri.loc).schemas uri.ptr = some s) := by
  have hlen : idx < st.refs.length := (List.getElem?_eq_some_iff.mp hcell).1
  simp only [insertSchema, fileFor_putFile, hdup, hw, Option.isSome_none,
    Bool.false_eq_true, if_false]
  refine ⟨trivial, ?_, ?_, ?_⟩
  · simp only [putFile_refs, hcell]
    exact List.getElem?_set_self hlen
  · simp only [putFile_refs, hcell, fileFor_update_refs, fileFor_putFile]
    exact lookupA_removeA_self _ _
  · simp only [putFile_refs, hcell, fileFor_update_refs, fileFor_putFile]
    simp [lookupA]

theorem c2_insert_witness :
    ((insertSchema ⟨[], [kb "x"]⟩ (.boolS true)
        { files := [([], { schemas := [], unresolved := [([kb "x"], 0)],
                           unknown_keywords := [] })],
          refs := [(kb "t", none)], root := none }).2.refs[0]? =
      some (kb "t", some (.boolS true))) :=
  (insert_binds_waiting_placeholder
    { files := [([], { schemas := [], unresolved := [([kb "x"], 0)],
                       unknown_keywords := [] })],
      refs := [(kb "t", none)], root := none }
    ⟨[], [kb "x"]⟩ (.boolS true) 0 (kb "t") none rfl rfl rfl).2.1

/-- C10's refuting document: an external `$ref` with no loader installed. -/
def exDoc10 : JVal := .object [(kb "$ref", .string (kb "x"))]

/-- C10 counterexample.  Before any *successful* `set_root_schema` call the
engine can still have a root: `set_root_schema` assigns `root_` before its
resolver loop runs, so on `{"$ref": "x"}` with no loader it throws from the
loop but leaves the root assigned to the unbound placeholder — a
subsequent `validate` then delivers `UnresolvedRef`, not the
no-root-schema error the claim requires. -/
theorem validate_after_failed_build_counterexample :
    ((setRootSchema 20 none (jnormalize 20 exDoc10) initState).1 =
      .error (.noLoader (kb "x")))
    ∧ (rootValidate (fun _ _ => false) 20
        (setRootSchema 20 none (jnormalize 20 exDoc10) initState).2 .null =
        [.unresolvedRef (kb "x#")])
    ∧ ([Err.unresolvedRef (kb "x#")] ≠ [Err.noRootSchema]) := ⟨rfl, rfl, by decide⟩

/-- C10 amended.  On a validator whose root has never been assigned — in
particular a fresh validator on which `set_root_schema` was never invoked —
`validate` neither crashes nor throws: it delivers exactly one error
stating that no root schema has yet been set, for every instance and every
fuel; the method is `const`, so the validator's state is untouched. -/
theorem validate_without_root_reports_single_error (st : RootState)
    (h : st.root = none) (rx : JKey → JKey → Bool) (vf : Nat) (I : JVal) :
    rootValidate rx vf st I = [.noRootSchema] := by
  simp [rootValidate, h]

theorem c10_no_root_witness :
    rootValidate (fun _ _ => false) 20 initState .null = [.noRootSchema] :=
  validate_without_root_reports_single_error initState rfl (fun _ _ => false) 20 .null
